import Mathlib

/-!
# Verification of the iridium persistent buffer store

A shallow embedding, in Lean 4, of the persistence subsystem of the iridium
shell (`src/store/`): the binary buffer database (`persistence/binary.rs`),
the layered persistence pipeline (`persistence/pipeline.rs`), the encryption
key handling (`persistence/crypto.rs`), and the in-memory `Buffer` /
`BufferStore` types (`buffer.rs`, `buffer_store.rs`).

Rust byte buffers (`Vec<u8>`) are modelled as `List Nat` with values below
256 produced by every writer.  Rust `String` values at the persistence
boundary are modelled as their UTF-8 byte lists together with the
`utf8Valid` validity check that `String::from_utf8` performs.  Fallible Rust
functions returning `PersistenceResult<T>` become `Except PersistenceError T`.
The external cryptographic and compression crates (chacha20poly1305,
aes-gcm, pbkdf2, lz4_flex) are not part of the repository; their primitives
are taken as abstract function parameters, with their documented contracts
(an AEAD decrypts its own output, a codec decompresses its own output)
appearing as explicit hypotheses where a theorem needs them.
-/

namespace Iridium

/-- A byte string: `Vec<u8>`.  Writers only ever emit values `< 256`. -/
abbrev Bytes := List Nat

/-- `PersistenceError` from `persistence/error.rs`, variant for variant.
`IoError` stands for the `Io(io::Error)` variant (the carried OS error is
irrelevant to control flow). -/
inductive PersistenceError where
  | IoError
  | InvalidMagic
  | UnsupportedVersion (v : Nat)
  | UnsupportedFlags (f : Nat)
  | InvalidUtf8
  | ValueOverflow (what : String)
  | MissingEncryptionKey
  | MissingSalt
  | InvalidEncryptionConfig (msg : String)
  | Crypto (msg : String)
  | CorruptPayload (what : String)
  | Compression
deriving DecidableEq, Repr

/-- `PersistenceResult<T>`. -/
abbrev PersistenceResult (α : Type) := Except PersistenceError α

/-- `read_exact` on an in-memory reader: take exactly `n` bytes or fail with
an I/O error (`UnexpectedEof`). -/
def readExact (n : Nat) (bs : Bytes) : PersistenceResult (Bytes × Bytes) :=
  if n ≤ bs.length then .ok (bs.take n, bs.drop n) else .error .IoError

/-- Little-endian byte list to natural number (`u32::from_le_bytes` /
`u64::from_le_bytes` on the chunk handed over by `read_exact`). -/
def fromLe (chunk : Bytes) : Nat :=
  chunk.foldr (fun b acc => b + 256 * acc) 0

/-- `u32::to_le_bytes` of a value already known to fit in 32 bits. -/
def toLe32 (v : Nat) : Bytes :=
  [v % 256, v / 256 % 256, v / 256 ^ 2 % 256, v / 256 ^ 3 % 256]

/-- `u64::to_le_bytes` of a value already known to fit in 64 bits. -/
def toLe64 (v : Nat) : Bytes :=
  [v % 256, v / 256 % 256, v / 256 ^ 2 % 256, v / 256 ^ 3 % 256,
   v / 256 ^ 4 % 256, v / 256 ^ 5 % 256, v / 256 ^ 6 % 256, v / 256 ^ 7 % 256]

/-- `read_u32` from `binary.rs`. -/
def readU32 (bs : Bytes) : PersistenceResult (Nat × Bytes) :=
  match readExact 4 bs with
  | .error e => .error e
  | .ok (chunk, rest) => .ok (fromLe chunk, rest)

/-- `read_u64` from `binary.rs`. -/
def readU64 (bs : Bytes) : PersistenceResult (Nat × Bytes) :=
  match readExact 8 bs with
  | .error e => .error e
  | .ok (chunk, rest) => .ok (fromLe chunk, rest)

/-- Is this byte a UTF-8 continuation byte (`10xxxxxx`)? -/
def utf8Cont (b : Nat) : Bool := 0x80 ≤ b && b ≤ 0xBF

/-- UTF-8 validity of a byte list: the check performed by
`String::from_utf8` in the Rust standard library (including the rejection
of overlong encodings, surrogate code points and values above U+10FFFF). -/
def utf8Valid : Bytes → Bool
  | [] => true
  | b :: rest =>
    if b ≤ 0x7F then utf8Valid rest
    else if 0xC2 ≤ b && b ≤ 0xDF then
      match rest with
      | c1 :: r => utf8Cont c1 && utf8Valid r
      | [] => false
    else if b = 0xE0 then
      match rest with
      | c1 :: c2 :: r => (0xA0 ≤ c1 && c1 ≤ 0xBF) && utf8Cont c2 && utf8Valid r
      | _ => false
    else if (0xE1 ≤ b && b ≤ 0xEC) || (0xEE ≤ b && b ≤ 0xEF) then
      match rest with
      | c1 :: c2 :: r => utf8Cont c1 && utf8Cont c2 && utf8Valid r
      | _ => false
    else if b = 0xED then
      match rest with
      | c1 :: c2 :: r => (0x80 ≤ c1 && c1 ≤ 0x9F) && utf8Cont c2 && utf8Valid r
      | _ => false
    else if b = 0xF0 then
      match rest with
      | c1 :: c2 :: c3 :: r =>
          (0x90 ≤ c1 && c1 ≤ 0xBF) && utf8Cont c2 && utf8Cont c3 && utf8Valid r
      | _ => false
    else if 0xF1 ≤ b && b ≤ 0xF3 then
      match rest with
      | c1 :: c2 :: c3 :: r => utf8Cont c1 && utf8Cont c2 && utf8Cont c3 && utf8Valid r
      | _ => false
    else if b = 0xF4 then
      match rest with
      | c1 :: c2 :: c3 :: r =>
          (0x80 ≤ c1 && c1 ≤ 0x8F) && utf8Cont c2 && utf8Cont c3 && utf8Valid r
      | _ => false
    else false

/-- `String::from_utf8`: a Rust `String` is modelled as its (valid) UTF-8
byte list, so success returns the bytes unchanged; invalid input is the
`InvalidUtf8` persistence error (`FromUtf8Error` via `#[from]`). -/
def fromUtf8 (bs : Bytes) : PersistenceResult Bytes :=
  if utf8Valid bs then .ok bs else .error .InvalidUtf8

/-- `BufferSnapshot` (`buffer_snapshot.rs`), at the byte level: the `name`
and each line are the UTF-8 bytes of the corresponding Rust `String`. -/
structure BufferSnapshot where
  name : Bytes
  lines : List Bytes
  requires_name : Bool
  is_open : Bool
  dirty : Bool
deriving DecidableEq, Repr

/-- A snapshot coming from actual Rust `String`s: every byte list is valid
UTF-8 (the invariant of `String`). -/
def BufferSnapshot.valid (s : BufferSnapshot) : Bool :=
  utf8Valid s.name && s.lines.all utf8Valid

/-- `bool_to_u8` from `binary.rs`. -/
def boolToU8 (b : Bool) : Nat := if b then 1 else 0

/-- `padding_len` from `binary.rs`: zero bytes padding a line up to the
next multiple of 8. -/
def paddingLen (len : Nat) : Nat := (8 - len % 8) % 8

/-- `BinaryBufferDb::write_line`: `u32` length, `u32` reserved, raw bytes,
zero padding; fails with `ValueOverflow` when the length exceeds `u32`. -/
def writeLine (line : Bytes) : PersistenceResult Bytes :=
  if line.length < 2 ^ 32 then
    .ok (toLe32 line.length ++ toLe32 0 ++ line ++ List.replicate (paddingLen line.length) 0)
  else .error (.ValueOverflow "line length")

/-- `BinaryBufferDb::read_line`: length, reserved, bytes, skipped padding,
then UTF-8 validation. -/
def readLine (bs : Bytes) : PersistenceResult (Bytes × Bytes) :=
  match readU32 bs with
  | .error e => .error e
  | .ok (lineLen, bs1) =>
    match readU32 bs1 with
    | .error e => .error e
    | .ok (_, bs2) =>
      match readExact lineLen bs2 with
      | .error e => .error e
      | .ok (bytes, bs3) =>
        match (if paddingLen lineLen > 0 then readExact (paddingLen lineLen) bs3
               else .ok ([], bs3)) with
        | .error e => .error e
        | .ok (_, bs4) =>
          match fromUtf8 bytes with
          | .error e => .error e
          | .ok s => .ok (s, bs4)

/-- The per-line loop of `write_buffer`, concatenating line records. -/
def writeLines : List Bytes → PersistenceResult Bytes
  | [] => .ok []
  | l :: ls =>
    match writeLine l with
    | .error e => .error e
    | .ok b =>
      match writeLines ls with
      | .error e => .error e
      | .ok r => .ok (b ++ r)

/-- The per-line loop of `read_buffer`, reading `n` line records. -/
def readLines : Nat → Bytes → PersistenceResult (List Bytes × Bytes)
  | 0, bs => .ok ([], bs)
  | n + 1, bs =>
    match readLine bs with
    | .error e => .error e
    | .ok (l, bs1) =>
      match readLines n bs1 with
      | .error e => .error e
      | .ok (ls, bs2) => .ok (l :: ls, bs2)

/-- `BinaryBufferDb::write_buffer`: name length, line count, four flag
bytes (`requires_name, is_open, dirty, reserved`), `u32` padding, name
bytes, then the line records. -/
def writeBuffer (s : BufferSnapshot) : PersistenceResult Bytes :=
  if s.name.length < 2 ^ 32 then
    if s.lines.length < 2 ^ 32 then
      match writeLines s.lines with
      | .error e => .error e
      | .ok body =>
        .ok (toLe32 s.name.length ++ toLe32 s.lines.length ++
             [boolToU8 s.requires_name, boolToU8 s.is_open, boolToU8 s.dirty, 0] ++
             toLe32 0 ++ s.name ++ body)
    else .error (.ValueOverflow "line count")
  else .error (.ValueOverflow "buffer name length")

/-- `BinaryBufferDb::read_buffer`. -/
def readBuffer (bs : Bytes) : PersistenceResult (BufferSnapshot × Bytes) :=
  match readU32 bs with
  | .error e => .error e
  | .ok (nameLen, bs1) =>
    match readU32 bs1 with
    | .error e => .error e
    | .ok (lineCount, bs2) =>
      match readExact 4 bs2 with
      | .error e => .error e
      | .ok (flags, bs3) =>
        match readU32 bs3 with
        | .error e => .error e
        | .ok (_, bs4) =>
          match readExact nameLen bs4 with
          | .error e => .error e
          | .ok (nameBytes, bs5) =>
            match fromUtf8 nameBytes with
            | .error e => .error e
            | .ok name =>
              match readLines lineCount bs5 with
              | .error e => .error e
              | .ok (lines, bs6) =>
                .ok (⟨name, lines, flags.getD 0 0 != 0, flags.getD 1 0 != 0,
                      flags.getD 2 0 != 0⟩, bs6)

/-- `BinaryBufferDb::encode_snapshots`: the per-snapshot loop. -/
def encodeSnapshots : List BufferSnapshot → PersistenceResult Bytes
  | [] => .ok []
  | s :: ss =>
    match writeBuffer s with
    | .error e => .error e
    | .ok b =>
      match encodeSnapshots ss with
      | .error e => .error e
      | .ok r => .ok (b ++ r)

/-- The `for _ in 0..buffer_count` loop of `load`. -/
def readBuffers : Nat → Bytes → PersistenceResult (List BufferSnapshot × Bytes)
  | 0, bs => .ok ([], bs)
  | n + 1, bs =>
    match readBuffer bs with
    | .error e => .error e
    | .ok (s, bs1) =>
      match readBuffers n bs1 with
      | .error e => .error e
      | .ok (ss, bs2) => .ok (s :: ss, bs2)

/-- `MAGIC`: the bytes of `b"IRDBUF\0\0"`. -/
def MAGIC : Bytes := [0x49, 0x52, 0x44, 0x42, 0x55, 0x46, 0, 0]

/-- `FORMAT_VERSION`. -/
def FORMAT_VERSION : Nat := 1

/-- `FileHeader` from `binary.rs`: 8-byte magic, `u32` version, `u32`
flags, `u64` reserved, `u64` buffer count. -/
structure FileHeader where
  magic : Bytes
  version : Nat
  flags : Nat
  bufferCount : Nat
  reserved0 : Nat
deriving DecidableEq, Repr

/-- `FileHeader::new`. -/
def FileHeader.new (flags bufferCount : Nat) : FileHeader :=
  ⟨MAGIC, FORMAT_VERSION, flags, bufferCount, 0⟩

/-- `FileHeader::write`: the 32-byte little-endian header. -/
def FileHeader.write (h : FileHeader) : Bytes :=
  h.magic ++ toLe32 h.version ++ toLe32 h.flags ++ toLe64 h.reserved0 ++
    toLe64 h.bufferCount

/-- `FileHeader::read`. -/
def FileHeader.read (bs : Bytes) : PersistenceResult (FileHeader × Bytes) :=
  match readExact 8 bs with
  | .error e => .error e
  | .ok (magic, bs1) =>
    match readU32 bs1 with
    | .error e => .error e
    | .ok (version, bs2) =>
      match readU32 bs2 with
      | .error e => .error e
      | .ok (flags, bs3) =>
        match readU64 bs3 with
        | .error e => .error e
        | .ok (reserved0, bs4) =>
          match readU64 bs4 with
          | .error e => .error e
          | .ok (bufferCount, bs5) =>
            .ok (⟨magic, version, flags, bufferCount, reserved0⟩, bs5)

/-- A pipeline layer (`trait PersistenceLayer`): an `encode` and `decode`
transform plus a capability flag bit. -/
structure PersistenceLayer where
  encode : Bytes → PersistenceResult Bytes
  decode : Bytes → PersistenceResult Bytes
  flagBit : Nat

/-- `PersistencePipeline`: the ordered layer list. -/
structure PersistencePipeline where
  layers : List PersistenceLayer

/-- `PersistencePipeline::flags`: fold of `|` over the layers' flag bits. -/
def PersistencePipeline.flags (p : PersistencePipeline) : Nat :=
  p.layers.foldl (fun acc l => acc ||| l.flagBit) 0

/-- The `for layer in &self.layers` loop of `PersistencePipeline::encode`. -/
def encodeLayers : List PersistenceLayer → Bytes → PersistenceResult Bytes
  | [], d => .ok d
  | l :: ls, d =>
    match l.encode d with
    | .error e => .error e
    | .ok d1 => encodeLayers ls d1

/-- The `for layer in self.layers.iter().rev()` loop of
`PersistencePipeline::decode`. -/
def decodeLayers : List PersistenceLayer → Bytes → PersistenceResult Bytes
  | [], d => .ok d
  | l :: ls, d =>
    match l.decode d with
    | .error e => .error e
    | .ok d1 => decodeLayers ls d1

/-- `PersistencePipeline::encode`: layers in registration order. -/
def PersistencePipeline.encode (p : PersistencePipeline) (data : Bytes) :
    PersistenceResult Bytes :=
  encodeLayers p.layers data

/-- `PersistencePipeline::decode`: layers in reverse registration order. -/
def PersistencePipeline.decode (p : PersistencePipeline) (data : Bytes) :
    PersistenceResult Bytes :=
  decodeLayers p.layers.reverse data

/-- `BinaryBufferDb::store`, as the bytes committed to the destination
path: encode the snapshots into the flat domain payload, pipeline-encode
it, and prefix the 32-byte header.  `snapshots.len() as u64` is the
truncating Rust cast. -/
def BinaryBufferDb.store (p : PersistencePipeline)
    (snapshots : List BufferSnapshot) : PersistenceResult Bytes :=
  match encodeSnapshots snapshots with
  | .error e => .error e
  | .ok payload =>
    match p.encode payload with
    | .error e => .error e
    | .ok transformed =>
      .ok ((FileHeader.new p.flags (snapshots.length % 2 ^ 64)).write ++ transformed)

/-- `BinaryBufferDb::load`.  The file system is modelled as the optional
file content at the path: `none` is `!path.exists()`.  The `u64 → usize`
conversion of `buffer_count` is infallible on the 64-bit targets the
program runs on, so it is the identity here. -/
def BinaryBufferDb.load (file : Option Bytes) (p : PersistencePipeline) :
    PersistenceResult (List BufferSnapshot) :=
  match file with
  | none => .ok []
  | some bytes =>
    match FileHeader.read bytes with
    | .error e => .error e
    | .ok (header, payload) =>
      if header.magic ≠ MAGIC then .error .InvalidMagic
      else if header.version ≠ FORMAT_VERSION then
        .error (.UnsupportedVersion header.version)
      else if header.flags ≠ p.flags then .error (.UnsupportedFlags header.flags)
      else
        match p.decode payload with
        | .error e => .error e
        | .ok decoded =>
          match readBuffers header.bufferCount decoded with
          | .error e => .error e
          | .ok (snapshots, _) => .ok snapshots

/-- `SALT_LEN` from `crypto.rs`. -/
def SALT_LEN : Nat := 16

/-- `EncryptionAlgorithm` (`crypto.rs`): the AEAD primitive itself lives in
the external `chacha20poly1305` / `aes-gcm` crates, so `encryptBytes` and
`decryptBytes` are abstract here; `nonceLen` is 12 for both variants and
`flagBit` is `0x0001` / `0x0002` in the source.  Failures of the cipher
are already mapped to `PersistenceError::Crypto(&'static str)` by
`EncryptionAlgorithm::encrypt/decrypt`, so the abstract functions return
`PersistenceResult`. -/
structure AeadAlgorithm where
  encryptBytes : Bytes → Bytes → Bytes → PersistenceResult Bytes
  decryptBytes : Bytes → Bytes → Bytes → PersistenceResult Bytes
  nonceLen : Nat
  flagBit : Nat

/-- `EncryptionAlgorithm::flag_bit` for `ChaCha20Poly1305`. -/
def chaCha20Poly1305FlagBit : Nat := 0x0001

/-- `EncryptionAlgorithm::flag_bit` for `Aes256Gcm`. -/
def aes256GcmFlagBit : Nat := 0x0002

/-- `CompressionAlgorithm::flag_bit` for `Lz4` (`compress.rs`). -/
def lz4FlagBit : Nat := 0x0010

/-- `EncryptionKeySource` (`crypto.rs`): a raw 32-byte key or a passphrase
with a PBKDF2 iteration count.  The passphrase is its byte string. -/
inductive EncryptionKeySource where
  | rawKey (key : Bytes)
  | passphrase (pass : Bytes) (iterations : Nat)

/-- `KeyMaterial` (`crypto.rs`). -/
structure KeyMaterial where
  key : Bytes
  salt : Option Bytes

/-- A key-derivation function standing for `pbkdf2_hmac::<Sha256>` of the
external `pbkdf2` crate: passphrase, salt, iteration count to 32-byte key.
It is deterministic, which is all the proofs use. -/
abbrev Kdf := Bytes → Bytes → Nat → Bytes

/-- `EncryptionKeySource::derive_for_encrypt`.  `saltRnd` is the fresh
16-byte salt that `OsRng.fill_bytes` samples in passphrase mode (the raw
key branch ignores it and records no salt).  The Rust function returns
`Ok` on every path. -/
def deriveForEncrypt (kdf : Kdf) (ks : EncryptionKeySource) (saltRnd : Bytes) :
    KeyMaterial :=
  match ks with
  | .rawKey key => ⟨key, none⟩
  | .passphrase pass iterations => ⟨kdf pass saltRnd iterations, some saltRnd⟩

/-- `EncryptionKeySource::derive_for_decrypt`. -/
def deriveForDecrypt (kdf : Kdf) (ks : EncryptionKeySource)
    (salt : Option Bytes) : PersistenceResult Bytes :=
  match ks with
  | .rawKey key =>
    match salt with
    | some s =>
      if s ≠ [] then
        .error (.InvalidEncryptionConfig
          "encrypted file provided salt but raw key mode was configured")
      else .ok key
    | none => .ok key
  | .passphrase pass iterations =>
    match salt with
    | none => .error .MissingSalt
    | some s =>
      if s.length ≠ SALT_LEN then
        .error (.InvalidEncryptionConfig "encrypted file salt length mismatch")
      else .ok (kdf pass s iterations)

/-- `EncryptionLayer::encode` (`pipeline.rs`): derive key material, sample
a fresh nonce (`nonceRnd`, the `alg.nonceLen` bytes `OsRng` fills),
encrypt, and lay out `[salt_len:u8][salt][nonce_len:u8][nonce][ciphertext]`.
The `as u8` casts are the truncating Rust casts. -/
def encryptionLayerEncode (alg : AeadAlgorithm) (kdf : Kdf)
    (ks : EncryptionKeySource) (saltRnd nonceRnd : Bytes) (data : Bytes) :
    PersistenceResult Bytes :=
  let material := deriveForEncrypt kdf ks saltRnd
  match alg.encryptBytes material.key nonceRnd data with
  | .error e => .error e
  | .ok ciphertext =>
    let salt := material.salt.getD []
    .ok ([salt.length % 256] ++ salt ++ [nonceRnd.length % 256] ++ nonceRnd ++
         ciphertext)

/-- `read_u8` from `pipeline.rs`. -/
def readU8 (bs : Bytes) : PersistenceResult (Nat × Bytes) :=
  match bs with
  | [] => .error .IoError
  | b :: rest => .ok (b, rest)

/-- `EncryptionLayer::decode` (`pipeline.rs`): parse salt length, salt
(absent when the length is zero), nonce length, nonce, remaining
ciphertext; re-derive the key from the caller's configuration; decrypt. -/
def encryptionLayerDecode (alg : AeadAlgorithm) (kdf : Kdf)
    (ks : EncryptionKeySource) (data : Bytes) : PersistenceResult Bytes :=
  match readU8 data with
  | .error e => .error e
  | .ok (saltLen, bs1) =>
    match (if saltLen > 0 then
             match readExact saltLen bs1 with
             | .error e => .error e
             | .ok (s, bs) => .ok (some s, bs)
           else .ok (none, bs1) :
            PersistenceResult (Option Bytes × Bytes)) with
    | .error e => .error e
    | .ok (salt, bs2) =>
      match readU8 bs2 with
      | .error e => .error e
      | .ok (nonceLen, bs3) =>
        match readExact nonceLen bs3 with
        | .error e => .error e
        | .ok (nonce, ciphertext) =>
          match deriveForDecrypt kdf ks salt with
          | .error e => .error e
          | .ok key => alg.decryptBytes key nonce ciphertext

/-- `EncryptionLayer` as a pipeline layer (its `flag_bit` is the
algorithm's). -/
def EncryptionLayer (alg : AeadAlgorithm) (kdf : Kdf)
    (ks : EncryptionKeySource) (saltRnd nonceRnd : Bytes) : PersistenceLayer :=
  ⟨encryptionLayerEncode alg kdf ks saltRnd nonceRnd,
   encryptionLayerDecode alg kdf ks, alg.flagBit⟩

/-- The LZ4 frame codec of the external `lz4_flex` crate
(`compress.rs` wraps it), abstract here. -/
structure CompressionCodec where
  comp : Bytes → PersistenceResult Bytes
  decomp : Bytes → PersistenceResult Bytes

/-- `CompressionLayer` as a pipeline layer (`Lz4` is the only algorithm;
its flag bit is `0x0010`). -/
def CompressionLayer (c : CompressionCodec) : PersistenceLayer :=
  ⟨c.comp, c.decomp, lz4FlagBit⟩

/-- A layer whose `decode` inverts its `encode` wherever `encode`
succeeds — the contract every valid layer configuration satisfies. -/
def LayerInverts (l : PersistenceLayer) : Prop :=
  ∀ x y, l.encode x = .ok y → l.decode y = .ok x

/-- The file-system operations `BinaryBufferDb::store` performs on the
destination path and its sibling `.tmp` file, in source order. -/
inductive FsOp where
  | createDirs
  | createTemp
  | writeTemp (bs : Bytes)
  | flushTemp
  | syncTemp
  | renameTempOverDest
deriving DecidableEq, Repr

/-- The visible contents of the destination path and the temporary file
(`none` = absent). -/
structure FsState where
  dest : Option Bytes
  temp : Option Bytes
deriving DecidableEq, Repr

/-- Effect of one file-system operation.  `rename` atomically replaces the
destination with the temporary file. -/
def applyFsOp (s : FsState) : FsOp → FsState
  | .createDirs => s
  | .createTemp => { s with temp := some [] }
  | .writeTemp bs => { s with temp := s.temp.map (· ++ bs) }
  | .flushTemp => s
  | .syncTemp => s
  | .renameTempOverDest => { dest := s.temp, temp := none }

/-- Run a list of file-system operations from a state. -/
def runFsOps (s : FsState) (ops : List FsOp) : FsState :=
  ops.foldl applyFsOp s

/-- `BinaryBufferDb::store` as the trace of file-system operations it
issues, in the order of the source: create the parent directories, create
the sibling temporary file, buffer-write the header then the transformed
payload, flush, `sync_all`, then `fs::rename` over the destination. -/
def BinaryBufferDb.storeOps (p : PersistencePipeline)
    (snapshots : List BufferSnapshot) : PersistenceResult (List FsOp) :=
  match encodeSnapshots snapshots with
  | .error e => .error e
  | .ok payload =>
    match p.encode payload with
    | .error e => .error e
    | .ok transformed =>
      .ok [.createDirs, .createTemp,
           .writeTemp (FileHeader.new p.flags (snapshots.length % 2 ^ 64)).write,
           .writeTemp transformed, .flushTemp, .syncTemp, .renameTempOverDest]

/-- `decode(encode(x)) == x` for a pipeline, wherever encode succeeds. -/
def PipelineRoundtrips (p : PersistencePipeline) : Prop :=
  ∀ x y, p.encode x = .ok y → p.decode y = .ok x

/-- The AEAD contract of the external cipher crates: decrypting a
ciphertext the cipher produced, under the same key and nonce, returns the
plaintext. -/
def AeadInverts (alg : AeadAlgorithm) : Prop :=
  ∀ k n x y, alg.encryptBytes k n x = .ok y → alg.decryptBytes k n y = .ok x

/-- The codec contract of the external `lz4_flex` crate: decompressing a
frame the encoder produced returns the original bytes. -/
def CodecInverts (c : CompressionCodec) : Prop :=
  ∀ x y, c.comp x = .ok y → c.decomp y = .ok x

/-- Concrete pipeline with no layers, for witnesses. -/
def wPipeline : PersistencePipeline := ⟨[]⟩

/-- Concrete snapshot (`name = "ab"`, lines `"hi"` and `""`), for
witnesses. -/
def wSnap : BufferSnapshot := ⟨[97, 98], [[104, 105], []], true, false, true⟩

/-- The bytes `store` commits for `[wSnap]` under `wPipeline`. -/
def wFileBytes : Bytes :=
  match BinaryBufferDb.store wPipeline [wSnap] with
  | .ok b => b
  | .error _ => []

/-- The operation trace of `store` for `[]` under `wPipeline`. -/
def wOps : List FsOp :=
  match BinaryBufferDb.storeOps wPipeline [] with
  | .ok o => o
  | .error _ => []

/-- The bytes `store` commits for `[]` under `wPipeline`. -/
def wStoreBytes : Bytes :=
  match BinaryBufferDb.store wPipeline [] with
  | .ok b => b
  | .error _ => []

/-- Concrete invertible stand-in for the compression codec, for
witnesses: prefix the length on encode, strip it on decode. -/
def wCodec : CompressionCodec :=
  ⟨fun x => .ok (x.length :: x),
   fun y => match y with
     | [] => .error .Compression
     | _ :: rest => .ok rest⟩

/-- Concrete stand-in satisfying the AEAD contract, for witnesses. -/
def wAead : AeadAlgorithm :=
  ⟨fun _ _ x => .ok x.reverse, fun _ _ y => .ok y.reverse, 12,
   chaCha20Poly1305FlagBit⟩

/-- Concrete deterministic KDF stand-in, for witnesses. -/
def wKdf : Kdf := fun pass salt _ => pass ++ salt

/-- Concrete AEAD whose decryption always reports a tag mismatch, as the
cipher crates do on authentication failure. -/
def wAeadTagFail : AeadAlgorithm :=
  ⟨fun _ _ x => .ok x,
   fun _ _ _ => .error (.Crypto "ChaCha20-Poly1305 decryption failure"), 12,
   chaCha20Poly1305FlagBit⟩

/-- Concrete pipeline with compression and an encryption layer, for
witnesses. -/
def wEncPipeline : PersistencePipeline :=
  ⟨[CompressionLayer wCodec,
    EncryptionLayer wAead wKdf (.rawKey (List.replicate 32 1))
      (List.replicate 16 7) (List.replicate 12 9)]⟩

/-- The bytes `store` commits for `[]` under `wEncPipeline`. -/
def wEncStoreBytes : Bytes :=
  match BinaryBufferDb.store wEncPipeline [] with
  | .ok b => b
  | .error _ => []

end Iridium

namespace IridiumStore

/-- A text line, as its character sequence.  `buffer.rs` addresses lines
by character index (`chars().count()`, `byte_index`), so a Rust `String`
line is modelled as its `List Char`; `byte_index` is exactly the
translation from these character positions to byte offsets and
`replace_range`/`split_off` on those offsets are `take`/`drop` here. -/
abbrev Line := List Char

/-- `Buffer` from `buffer.rs`. -/
structure Buffer where
  name : String
  lines : List Line
  dirty : Bool
  requires_name : Bool
  is_open : Bool
deriving DecidableEq, Repr

/-- `Buffer::with_name_state`. -/
def Buffer.withNameState (name : String) (requiresName : Bool) : Buffer :=
  ⟨name, [], false, requiresName, true⟩

/-- `Buffer::new`. -/
def Buffer.new (name : String) : Buffer := Buffer.withNameState name false

/-- `Buffer::new_untitled`. -/
def Buffer.newUntitled (name : String) : Buffer := Buffer.withNameState name true

/-- `Buffer::append`: push the line and mark dirty. -/
def Buffer.append (b : Buffer) (line : Line) : Buffer :=
  { b with lines := b.lines ++ [line], dirty := true }

/-- `Buffer::clear`: drop all lines and mark dirty. -/
def Buffer.clear (b : Buffer) : Buffer :=
  { b with lines := [], dirty := true }

/-- `Buffer::remove_last`: pop the last line; dirty only when one was
popped. -/
def Buffer.removeLast (b : Buffer) : Buffer × Option Line :=
  match b.lines.getLast? with
  | none => (b, none)
  | some l => ({ b with lines := b.lines.dropLast, dirty := true }, some l)

/-- The `while self.lines.len() <= row` growth loop shared by
`insert_char`, `insert_newline` and `pad_line`. -/
def growTo (lines : List Line) (row : Nat) : List Line :=
  lines ++ List.replicate (row + 1 - lines.length) []

/-- `Buffer::insert_char`. -/
def Buffer.insertChar (b : Buffer) (row col : Nat) (ch : Char) : Buffer :=
  let lines := growTo b.lines row
  let line := lines.getD row []
  let cc := line.length
  let line1 := if col > cc then line ++ List.replicate (col - cc) ' ' else line
  let line2 :=
    if col ≥ cc then line1 ++ [ch]
    else line1.take col ++ [ch] ++ line1.drop (col + 1)
  { b with lines := lines.set row line2, dirty := true }

/-- `Buffer::delete_char`: returns the mutated buffer and the new cursor
(`None` and no mutation when out of range). -/
def Buffer.deleteChar (b : Buffer) (row col : Nat) :
    Buffer × Option (Nat × Nat) :=
  match b.lines.get? row with
  | none => (b, none)
  | some line =>
    if col = 0 ∨ col > line.length then (b, none)
    else
      let newLines := b.lines.set row (line.take (col - 1) ++ line.drop col)
      ({ b with lines := newLines, dirty := true }, some (row, col - 1))

/-- `Buffer::insert_newline`. -/
def Buffer.insertNewline (b : Buffer) (row col : Nat) :
    Buffer × (Nat × Nat) :=
  let lines := growTo b.lines row
  let line := lines.getD row []
  let cc := line.length
  let line1 := if col > cc then line ++ List.replicate (col - cc) ' ' else line
  let kept := line1.take col
  let trailing := line1.drop col
  let newLines := (lines.set row kept).insertIdx (row + 1) trailing
  ({ b with lines := newLines, dirty := true }, (row + 1, 0))

/-- `Buffer::pad_line`: grow the line list up to `row`, then pad the line
with spaces when it is shorter than `width` (only then marking dirty). -/
def Buffer.padLine (b : Buffer) (row width : Nat) : Buffer :=
  let lines := growTo b.lines row
  let line := lines.getD row []
  if line.length < width then
    let newLines := lines.set row (line ++ List.replicate (width - line.length) ' ')
    { b with lines := newLines, dirty := true }
  else { b with lines := lines }

/-- `Buffer::save_to_disk`: the I/O outcome (directory creation, file
create, writes) is the `ioOk` argument; on success the dirty flag is
cleared, on failure the error propagates with the buffer unchanged. -/
def Buffer.saveToDisk (b : Buffer) (ioOk : Bool) : Buffer × Bool :=
  if ioOk then ({ b with dirty := false }, true) else (b, false)

/-- `Buffer::mark_clean`. -/
def Buffer.markClean (b : Buffer) : Buffer := { b with dirty := false }

/-- `Buffer::set_open`. -/
def Buffer.setOpen (b : Buffer) (open_ : Bool) : Buffer :=
  { b with is_open := open_ }

/-- `Buffer::set_name`: updates the name and clears `requires_name`. -/
def Buffer.setName (b : Buffer) (name : String) : Buffer :=
  { b with name := name, requires_name := false }

/-- `Buffer::mark_requires_name`. -/
def Buffer.markRequiresName (b : Buffer) (r : Bool) : Buffer :=
  { b with requires_name := r }

/-- The `name → Buffer` map of `BufferStore`, as an association list with
`HashMap` semantics (`contains_key`, `get`, `remove`, `insert`); a
`HashMap` never holds two entries for one key, which is the `Nodup`
hypothesis where a proof needs it. -/
abbrev BufferMap := List (String × Buffer)

/-- `HashMap::contains_key`. -/
def containsKey (m : BufferMap) (k : String) : Bool :=
  m.any (fun p => p.1 = k)

/-- `HashMap::get`. -/
def lookupKey : BufferMap → String → Option Buffer
  | [], _ => none
  | (k', v) :: rest, k => if k' = k then some v else lookupKey rest k

/-- `HashMap::remove` (drops the entry for the key). -/
def removeKey : BufferMap → String → BufferMap
  | [], _ => []
  | (k', v) :: rest, k => if k' = k then rest else (k', v) :: removeKey rest k

/-- `HashMap::insert` (replace the entry when the key is present, add it
otherwise). -/
def insertKey (m : BufferMap) (k : String) (v : Buffer) : BufferMap :=
  if containsKey m k then
    m.map (fun p => if p.1 = k then (k, v) else p)
  else m ++ [(k, v)]

/-- `BufferStore` from `buffer_store.rs`. -/
structure BufferStore where
  buffers : BufferMap
deriving DecidableEq, Repr

/-- `BufferStore::rename`: refuse when `old == new`, `new` is empty, or
`new` already exists; otherwise remove the `old` entry (refusing when it
is absent), update the buffer's own name, and insert under `new`. -/
def BufferStore.rename (st : BufferStore) (oldName newName : String) :
    BufferStore × Bool :=
  if oldName = newName ∨ newName = "" then (st, false)
  else if containsKey st.buffers newName then (st, false)
  else
    match lookupKey st.buffers oldName with
    | some buffer =>
      let buffer1 := buffer.setName newName
      (⟨insertKey (removeKey st.buffers oldName) newName buffer1⟩, true)
    | none => (st, false)

end IridiumStore

namespace Iridium

theorem readExact_append (n : Nat) (xs rest : Bytes) (h : xs.length = n) :
    readExact n (xs ++ rest) = .ok (xs, rest) := by
  subst h
  simp [readExact, List.take_left, List.drop_left]

theorem fromLe_toLe32 (v : Nat) (h : v < 2 ^ 32) : fromLe (toLe32 v) = v := by
  simp only [fromLe, toLe32, List.foldr]
  omega

theorem fromLe_toLe64 (v : Nat) (h : v < 2 ^ 64) : fromLe (toLe64 v) = v := by
  simp only [fromLe, toLe64, List.foldr]
  omega

theorem toLe32_length (v : Nat) : (toLe32 v).length = 4 := rfl

theorem toLe64_length (v : Nat) : (toLe64 v).length = 8 := rfl

theorem readU32_toLe32_append (v : Nat) (h : v < 2 ^ 32) (rest : Bytes) :
    readU32 (toLe32 v ++ rest) = .ok (v, rest) := by
  simp [readU32, readExact_append 4 (toLe32 v) rest (toLe32_length v), fromLe_toLe32 v h]

theorem readU64_toLe64_append (v : Nat) (h : v < 2 ^ 64) (rest : Bytes) :
    readU64 (toLe64 v ++ rest) = .ok (v, rest) := by
  simp [readU64, readExact_append 8 (toLe64 v) rest (toLe64_length v), fromLe_toLe64 v h]

theorem fromUtf8_of_valid (bs : Bytes) (h : utf8Valid bs = true) :
    fromUtf8 bs = .ok bs := by
  simp [fromUtf8, h]

theorem boolToU8_bne_zero (b : Bool) : (boolToU8 b != 0) = b := by
  cases b <;> rfl

theorem readLine_writeLine (l out rest : Bytes) (hv : utf8Valid l = true)
    (h : writeLine l = .ok out) :
    readLine (out ++ rest) = .ok (l, rest) := by
  unfold writeLine at h
  split at h
  case isFalse => exact absurd h (by simp)
  case isTrue hlt =>
    injection h with h
    subst h
    by_cases hp : paddingLen l.length > 0 <;>
      simp [readLine, List.append_assoc, readU32_toLe32_append _ hlt,
        readU32_toLe32_append 0 (by norm_num), readExact_append,
        fromUtf8_of_valid _ hv, hp, Nat.eq_zero_of_not_pos]

theorem readLines_writeLines (ls : List Bytes) (out rest : Bytes)
    (hv : ∀ l ∈ ls, utf8Valid l = true)
    (h : writeLines ls = .ok out) :
    readLines ls.length (out ++ rest) = .ok (ls, rest) := by
  induction ls generalizing out rest with
  | nil =>
    simp [writeLines] at h
    subst h
    simp [readLines]
  | cons l ls ih =>
    simp only [writeLines] at h
    cases hw : writeLine l with
    | error e => rw [hw] at h; exact absurd h (by simp)
    | ok b =>
      rw [hw] at h
      cases hr : writeLines ls with
      | error e => rw [hr] at h; exact absurd h (by simp)
      | ok r =>
        rw [hr] at h
        injection h with h
        subst h
        have hl := readLine_writeLine l b (r ++ rest) (hv l (by simp)) hw
        simp only [List.length_cons, readLines, List.append_assoc, hl]
        rw [ih r rest (fun x hx => hv x (by simp [hx])) hr]

theorem readBuffer_writeBuffer (s : BufferSnapshot) (out rest : Bytes)
    (hv : s.valid = true) (h : writeBuffer s = .ok out) :
    readBuffer (out ++ rest) = .ok (s, rest) := by
  unfold writeBuffer at h
  split at h
  case isFalse => exact absurd h (by simp)
  case isTrue hn =>
    split at h
    case isFalse => exact absurd h (by simp)
    case isTrue hc =>
      cases hw : writeLines s.lines with
      | error e => rw [hw] at h; exact absurd h (by simp)
      | ok body =>
        rw [hw] at h
        injection h with h
        subst h
        have hvn : utf8Valid s.name = true := by
          have := hv
          simp [BufferSnapshot.valid] at this
          exact this.1
        have hvl : ∀ l ∈ s.lines, utf8Valid l = true := by
          have := hv
          simp [BufferSnapshot.valid, List.all_eq_true] at this
          exact this.2
        have hlines := readLines_writeLines s.lines body rest hvl hw
        simp only [readBuffer, List.append_assoc, readU32_toLe32_append _ hn,
          readU32_toLe32_append _ hc, readU32_toLe32_append 0 (by norm_num),
          readExact_append 4 [boolToU8 s.requires_name, boolToU8 s.is_open,
            boolToU8 s.dirty, 0] _ rfl,
          readExact_append s.name.length s.name _ rfl,
          fromUtf8_of_valid _ hvn, hlines]
        simp [List.getD, boolToU8_bne_zero]

theorem readBuffers_encodeSnapshots (ss : List BufferSnapshot)
    (out rest : Bytes) (hv : ∀ s ∈ ss, s.valid = true)
    (h : encodeSnapshots ss = .ok out) :
    readBuffers ss.length (out ++ rest) = .ok (ss, rest) := by
  induction ss generalizing out rest with
  | nil =>
    simp [encodeSnapshots] at h
    subst h
    simp [readBuffers]
  | cons s ss ih =>
    simp only [encodeSnapshots] at h
    cases hw : writeBuffer s with
    | error e => rw [hw] at h; exact absurd h (by simp)
    | ok b =>
      rw [hw] at h
      cases hr : encodeSnapshots ss with
      | error e => rw [hr] at h; exact absurd h (by simp)
      | ok r =>
        rw [hr] at h
        injection h with h
        subst h
        have hb := readBuffer_writeBuffer s b (r ++ rest) (hv s (by simp)) hw
        simp only [List.length_cons, readBuffers, List.append_assoc, hb]
        rw [ih r rest (fun x hx => hv x (by simp [hx])) hr]

theorem fileHeader_read_write (h : FileHeader) (rest : Bytes)
    (hm : h.magic.length = 8) (hv : h.version < 2 ^ 32) (hf : h.flags < 2 ^ 32)
    (hr : h.reserved0 < 2 ^ 64) (hc : h.bufferCount < 2 ^ 64) :
    FileHeader.read (h.write ++ rest) = .ok (h, rest) := by
  simp [FileHeader.read, FileHeader.write, List.append_assoc,
    readExact_append 8 h.magic _ hm, readU32_toLe32_append _ hv,
    readU32_toLe32_append _ hf, readU64_toLe64_append _ hr,
    readU64_toLe64_append _ hc]

/-- C1: for every list of `BufferSnapshot` values and a fixed
`PersistencePipeline`, storing the list with `BinaryBufferDb::store` and
loading the stored bytes with `BinaryBufferDb::load` returns exactly the
same snapshots, in order, every field preserved.  The hypotheses are the
standing invariants of the real program: the strings are valid UTF-8
(Rust `String`s), the snapshot count fits `u64` (a Rust `usize`), the
flags word fits `u32` (a Rust `u32`), and the pipeline layers invert
(each valid layer configuration does — see the C3 theorem). -/
theorem store_load_roundtrip (p : PersistencePipeline)
    (snapshots : List BufferSnapshot) (fileBytes : Bytes)
    (hval : ∀ s ∈ snapshots, s.valid = true)
    (hlen : snapshots.length < 2 ^ 64)
    (hflags : p.flags < 2 ^ 32)
    (hinv : ∀ x y, p.encode x = .ok y → p.decode y = .ok x)
    (hstore : BinaryBufferDb.store p snapshots = .ok fileBytes) :
    BinaryBufferDb.load (some fileBytes) p = .ok snapshots := by
  unfold BinaryBufferDb.store at hstore
  cases he : encodeSnapshots snapshots with
  | error e => rw [he] at hstore; exact absurd hstore (by simp)
  | ok payload =>
    rw [he] at hstore
    dsimp only at hstore
    cases ht : p.encode payload with
    | error e => rw [ht] at hstore; exact absurd hstore (by simp)
    | ok transformed =>
      rw [ht] at hstore
      injection hstore with hstore
      subst hstore
      have hcount : snapshots.length % 18446744073709551616 = snapshots.length :=
        Nat.mod_eq_of_lt (by omega)
      have hdr := fileHeader_read_write
        (FileHeader.new p.flags (snapshots.length % 2 ^ 64)) transformed
        rfl (by norm_num [FileHeader.new, FORMAT_VERSION]) hflags
        (by norm_num [FileHeader.new]) (by simp [FileHeader.new]; omega)
      have hdec : p.decode transformed = .ok payload := hinv payload transformed ht
      have hread := readBuffers_encodeSnapshots snapshots payload [] hval he
      rw [List.append_nil] at hread
      simp only [BinaryBufferDb.load, hdr]
      simp [FileHeader.new, MAGIC, FORMAT_VERSION, hcount, hdec, hread]

theorem decodeLayers_encodeLayers (ls : List PersistenceLayer)
    (hinv : ∀ l ∈ ls, LayerInverts l) :
    ∀ x y, encodeLayers ls x = .ok y → decodeLayers ls.reverse y = .ok x := by
  induction ls with
  | nil =>
    intro x y h
    simp [encodeLayers] at h
    simp [decodeLayers, h]
  | cons l ls ih =>
    intro x y h
    simp only [encodeLayers] at h
    cases he : l.encode x with
    | error e => rw [he] at h; exact absurd h (by simp)
    | ok x1 =>
      rw [he] at h
      have hrest := ih (fun m hm => hinv m (by simp [hm])) x1 y h
      have hdec : l.decode x1 = .ok x := hinv l (by simp) x x1 he
      have happ : ∀ d, decodeLayers (ls.reverse ++ [l]) d =
          match decodeLayers ls.reverse d with
          | .error e => .error e
          | .ok d1 => l.decode d1 := by
        intro d
        induction ls.reverse generalizing d with
        | nil =>
          simp only [List.nil_append, decodeLayers]
          cases hld : l.decode d <;> simp [hld, decodeLayers]
        | cons m ms ihm =>
          simp only [List.cons_append, decodeLayers]
          cases m.decode d with
          | error e => rfl
          | ok d1 => exact ihm d1
      simp only [List.reverse_cons, happ, hrest, hdec]

/-- `PersistencePipeline::decode ∘ encode = id` wherever encode succeeds,
given that every registered layer is invertible. -/
theorem pipeline_inverts (p : PersistencePipeline)
    (hinv : ∀ l ∈ p.layers, LayerInverts l) :
    ∀ x y, p.encode x = .ok y → p.decode y = .ok x :=
  decodeLayers_encodeLayers p.layers hinv

/-- The encryption layer inverts itself: the framing written by `encode`
is parsed back by `decode`, the key re-derivation agrees, and the AEAD
contract (`decrypt` inverts `encrypt` under the same key and nonce) does
the rest.  Needs the salt to be the 16 `OsRng` bytes in passphrase mode
and the nonce to be the 12 `OsRng` bytes. -/
theorem encryptionLayer_inverts (alg : AeadAlgorithm) (kdf : Kdf)
    (ks : EncryptionKeySource) (saltRnd nonceRnd : Bytes)
    (haead : ∀ k n x y, alg.encryptBytes k n x = .ok y →
      alg.decryptBytes k n y = .ok x)
    (hsalt : saltRnd.length = SALT_LEN)
    (hnonce : nonceRnd.length = 12) :
    LayerInverts (EncryptionLayer alg kdf ks saltRnd nonceRnd) := by
  intro x y h
  simp only [EncryptionLayer, encryptionLayerEncode] at h
  cases ks with
  | rawKey key =>
    cases he : alg.encryptBytes key nonceRnd x with
    | error e => simp only [deriveForEncrypt, he] at h; exact absurd h (by simp)
    | ok ciphertext =>
      simp only [deriveForEncrypt, he, Option.getD] at h
      injection h with h
      subst h
      simp only [EncryptionLayer, encryptionLayerDecode, readU8, List.nil_append,
        List.length_nil, Nat.zero_mod, List.cons_append, hnonce,
        List.append_assoc]
      simp [readU8, readExact_append 12 nonceRnd ciphertext hnonce,
        deriveForDecrypt, haead key nonceRnd x ciphertext he]
  | passphrase pass iterations =>
    cases he : alg.encryptBytes (kdf pass saltRnd iterations) nonceRnd x with
    | error e => simp only [deriveForEncrypt, he] at h; exact absurd h (by simp)
    | ok ciphertext =>
      simp only [deriveForEncrypt, he, Option.getD] at h
      injection h with h
      subst h
      simp only [EncryptionLayer, encryptionLayerDecode, readU8, hsalt, hnonce,
        SALT_LEN, List.cons_append, List.nil_append, List.append_assoc]
      rw [readExact_append 16 saltRnd _ (by rw [hsalt]; rfl)]
      simp [readU8, readExact_append 12 nonceRnd ciphertext hnonce,
        deriveForDecrypt, hsalt, SALT_LEN,
        haead (kdf pass saltRnd iterations) nonceRnd x ciphertext he]

/-- Witness for C1: a concrete snapshot list stored and reloaded through
a concrete pipeline comes back unchanged. -/
theorem store_load_roundtrip_witness :
    BinaryBufferDb.load (some wFileBytes) wPipeline = .ok [wSnap] :=
  store_load_roundtrip wPipeline [wSnap] wFileBytes (by decide) (by decide)
    (by decide)
    (fun x y h => by
      simp only [wPipeline, PersistencePipeline.encode, encodeLayers] at h
      injection h with h
      subst h
      simp [wPipeline, PersistencePipeline.decode, decodeLayers])
    rfl

/-- C2: `store` always issues the same file-system sequence — create the
parent directories, create the sibling temporary file, write the header
and the pipeline-encoded payload to it, flush, sync, then one atomic
rename — and along every proper prefix of that sequence the destination
content is untouched; only the complete sequence changes it, installing
exactly the stored bytes.  A reader therefore observes the previous
complete file or the new complete file, never a partial write. -/
theorem store_atomic_commit (p : PersistencePipeline)
    (snaps : List BufferSnapshot) (ops : List FsOp) (fileBytes : Bytes)
    (hops : BinaryBufferDb.storeOps p snaps = .ok ops)
    (hstore : BinaryBufferDb.store p snaps = .ok fileBytes) :
    (∃ hdrBytes transformed,
      fileBytes = hdrBytes ++ transformed ∧
      ops = [.createDirs, .createTemp, .writeTemp hdrBytes,
             .writeTemp transformed, .flushTemp, .syncTemp,
             .renameTempOverDest]) ∧
    ∀ s0 : FsState,
      (∀ n, n < ops.length → (runFsOps s0 (ops.take n)).dest = s0.dest) ∧
      (runFsOps s0 ops).dest = some fileBytes := by
  unfold BinaryBufferDb.storeOps at hops
  unfold BinaryBufferDb.store at hstore
  cases he : encodeSnapshots snaps with
  | error e =>
    rw [he] at hops
    exact absurd hops (by simp)
  | ok payload =>
    rw [he] at hops
    rw [he] at hstore
    dsimp only at hops hstore
    cases ht : p.encode payload with
    | error e =>
      rw [ht] at hops
      exact absurd hops (by simp)
    | ok transformed =>
      rw [ht] at hops
      rw [ht] at hstore
      injection hops with hops
      injection hstore with hstore
      subst hops
      subst hstore
      refine ⟨⟨(FileHeader.new p.flags (snaps.length % 2 ^ 64)).write,
        transformed, rfl, rfl⟩, ?_⟩
      intro s0
      constructor
      · intro n hn
        simp only [List.length_cons, List.length_nil] at hn
        interval_cases n <;> rfl
      · rfl

/-- Witness for C2: the trace and committed bytes of a concrete store
call, checked against a concrete initial file-system state. -/
theorem store_atomic_commit_witness :
    ((∃ hdrBytes transformed,
      wStoreBytes = hdrBytes ++ transformed ∧
      wOps = [.createDirs, .createTemp, .writeTemp hdrBytes,
              .writeTemp transformed, .flushTemp, .syncTemp,
              .renameTempOverDest]) ∧
    ∀ s0 : FsState,
      (∀ n, n < wOps.length → (runFsOps s0 (wOps.take n)).dest = s0.dest) ∧
      (runFsOps s0 wOps).dest = some wStoreBytes) :=
  store_atomic_commit wPipeline [] wOps wStoreBytes rfl rfl

/-- C3: the pipeline applies layers in registration order on encode and
reverse order on decode, and `decode(encode(x)) == x` for every valid
configuration: compression alone, and compression plus encryption in
raw-key or passphrase mode with the same settings on both sides.  The
external codec contracts (`CodecInverts`, `AeadInverts`) are hypotheses;
the salt and nonce lengths are what `OsRng` samples in the source. -/
theorem pipeline_decode_encode_roundtrip (c : CompressionCodec)
    (hc : CodecInverts c) (alg : AeadAlgorithm) (haead : AeadInverts alg)
    (kdf : Kdf) (key pass : Bytes) (iters : Nat) (saltR nonceR : Bytes)
    (hs : saltR.length = SALT_LEN) (hn : nonceR.length = 12) :
    PipelineRoundtrips ⟨[CompressionLayer c]⟩ ∧
    PipelineRoundtrips
      ⟨[CompressionLayer c,
        EncryptionLayer alg kdf (.rawKey key) saltR nonceR]⟩ ∧
    PipelineRoundtrips
      ⟨[CompressionLayer c,
        EncryptionLayer alg kdf (.passphrase pass iters) saltR nonceR]⟩ := by
  have hcomp : LayerInverts (CompressionLayer c) := hc
  refine ⟨pipeline_inverts _ ?_, pipeline_inverts _ ?_, pipeline_inverts _ ?_⟩
  · intro l hl
    simp only [List.mem_singleton] at hl
    subst hl
    exact hcomp
  · intro l hl
    simp only [List.mem_cons, List.mem_singleton] at hl
    rcases hl with hl | hl | hl
    · subst hl; exact hcomp
    · subst hl; exact encryptionLayer_inverts alg kdf _ saltR nonceR haead hs hn
    · cases hl
  · intro l hl
    simp only [List.mem_cons, List.mem_singleton] at hl
    rcases hl with hl | hl | hl
    · subst hl; exact hcomp
    · subst hl; exact encryptionLayer_inverts alg kdf _ saltR nonceR haead hs hn
    · cases hl

/-- Witness for C3: concrete codec, AEAD, KDF, key material, salt and
nonce satisfying the contracts; the three configurations round-trip. -/
theorem pipeline_decode_encode_roundtrip_witness :
    PipelineRoundtrips ⟨[CompressionLayer wCodec]⟩ ∧
    PipelineRoundtrips
      ⟨[CompressionLayer wCodec,
        EncryptionLayer wAead wKdf (.rawKey (List.replicate 32 1))
          (List.replicate 16 7) (List.replicate 12 9)]⟩ ∧
    PipelineRoundtrips
      ⟨[CompressionLayer wCodec,
        EncryptionLayer wAead wKdf (.passphrase [112] 600000)
          (List.replicate 16 7) (List.replicate 12 9)]⟩ :=
  pipeline_decode_encode_roundtrip wCodec
    (fun x y h => by
      simp only [wCodec] at h
      injection h with h
      subst h
      rfl)
    wAead
    (fun k n x y h => by
      simp only [wAead] at h
      injection h with h
      subst h
      simp [wAead])
    wKdf (List.replicate 32 1) [112] 600000 (List.replicate 16 7)
    (List.replicate 12 9) (by decide) (by decide)

/-- C4: `load` on an existing file fails with `InvalidMagic` when the
first 8 bytes are not the magic, with `UnsupportedVersion` when the
version field is not 1, and with `UnsupportedFlags` when the header flags
differ from `pipeline.flags()`; in particular any file stored under one
pipeline fails against a pipeline with different flags, and a pipeline
with an encryption layer has different flags from one without it (in
both directions, since inequality is symmetric). -/
theorem load_header_validation (p : PersistencePipeline) (magic : Bytes)
    (v fl r cnt : Nat) (payload : Bytes) (hm : magic.length = 8)
    (hv : v < 2 ^ 32) (hf : fl < 2 ^ 32) (hr : r < 2 ^ 64)
    (hcnt : cnt < 2 ^ 64) :
    (magic ≠ MAGIC →
      BinaryBufferDb.load
        (some (magic ++ toLe32 v ++ toLe32 fl ++ toLe64 r ++ toLe64 cnt ++
          payload)) p = .error .InvalidMagic) ∧
    (magic = MAGIC → v ≠ FORMAT_VERSION →
      BinaryBufferDb.load
        (some (magic ++ toLe32 v ++ toLe32 fl ++ toLe64 r ++ toLe64 cnt ++
          payload)) p = .error (.UnsupportedVersion v)) ∧
    (magic = MAGIC → v = FORMAT_VERSION → fl ≠ p.flags →
      BinaryBufferDb.load
        (some (magic ++ toLe32 v ++ toLe32 fl ++ toLe64 r ++ toLe64 cnt ++
          payload)) p = .error (.UnsupportedFlags fl)) ∧
    (∀ p1 p2 : PersistencePipeline, ∀ snaps bytes,
      p1.flags < 2 ^ 32 → p1.flags ≠ p2.flags →
      BinaryBufferDb.store p1 snaps = .ok bytes →
      BinaryBufferDb.load (some bytes) p2 =
        .error (.UnsupportedFlags p1.flags)) ∧
    (∀ (c : CompressionCodec) (alg : AeadAlgorithm) (kdf : Kdf)
      (ks : EncryptionKeySource) (saltR nonceR : Bytes),
      alg.flagBit = chaCha20Poly1305FlagBit ∨ alg.flagBit = aes256GcmFlagBit →
      (⟨[CompressionLayer c, EncryptionLayer alg kdf ks saltR nonceR]⟩ :
        PersistencePipeline).flags ≠
      (⟨[CompressionLayer c]⟩ : PersistencePipeline).flags) := by
  have hread : FileHeader.read
      (magic ++ toLe32 v ++ toLe32 fl ++ toLe64 r ++ toLe64 cnt ++ payload) =
      .ok (⟨magic, v, fl, cnt, r⟩, payload) := by
    simp [FileHeader.read, List.append_assoc, readExact_append 8 magic _ hm,
      readU32_toLe32_append _ hv, readU32_toLe32_append _ hf,
      readU64_toLe64_append _ hr, readU64_toLe64_append _ hcnt]
  refine ⟨?_, ?_, ?_, ?_, ?_⟩
  · intro hmag
    simp only [BinaryBufferDb.load, hread]
    simp [hmag]
  · intro hmag hver
    simp only [BinaryBufferDb.load, hread]
    simp [hmag, hver]
  · intro hmag hver hfl
    simp only [BinaryBufferDb.load, hread]
    simp [hmag, hver, hfl]
  · intro p1 p2 snaps bytes hp1 hne hstore
    unfold BinaryBufferDb.store at hstore
    cases he : encodeSnapshots snaps with
    | error e => rw [he] at hstore; exact absurd hstore (by simp)
    | ok payload1 =>
      rw [he] at hstore
      dsimp only at hstore
      cases ht : p1.encode payload1 with
      | error e => rw [ht] at hstore; exact absurd hstore (by simp)
      | ok transformed =>
        rw [ht] at hstore
        injection hstore with hstore
        subst hstore
        have hread1 := fileHeader_read_write
          (FileHeader.new p1.flags (snaps.length % 2 ^ 64)) transformed rfl
          (by norm_num [FileHeader.new, FORMAT_VERSION]) hp1
          (by norm_num [FileHeader.new]) (by simp [FileHeader.new]; omega)
        simp only [BinaryBufferDb.load, hread1]
        simp [FileHeader.new, MAGIC, FORMAT_VERSION, hne]
  · intro c alg kdf ks saltR nonceR halg
    rcases halg with halg | halg <;>
      simp [PersistencePipeline.flags, CompressionLayer, EncryptionLayer,
        lz4FlagBit, chaCha20Poly1305FlagBit, aes256GcmFlagBit, halg]

/-- Witness for C4: a wrong-magic file, a wrong-version file, a
wrong-flags file, and a store/load pair under pipelines with different
flags, all at concrete bytes. -/
theorem load_header_validation_witness :
    (BinaryBufferDb.load
      (some ([1, 2, 3, 4, 5, 6, 7, 8] ++ toLe32 1 ++ toLe32 0 ++ toLe64 0 ++
        toLe64 0 ++ [])) wPipeline = .error .InvalidMagic) ∧
    (BinaryBufferDb.load
      (some (MAGIC ++ toLe32 2 ++ toLe32 0 ++ toLe64 0 ++ toLe64 0 ++ []))
      wPipeline = .error (.UnsupportedVersion 2)) ∧
    (BinaryBufferDb.load
      (some (MAGIC ++ toLe32 1 ++ toLe32 17 ++ toLe64 0 ++ toLe64 0 ++ []))
      wPipeline = .error (.UnsupportedFlags 17)) ∧
    (BinaryBufferDb.load (some wEncStoreBytes) wPipeline =
      .error (.UnsupportedFlags wEncPipeline.flags)) ∧
    wEncPipeline.flags ≠ wPipeline.flags := by
  have h1 := (load_header_validation wPipeline [1, 2, 3, 4, 5, 6, 7, 8] 1 0 0 0
    [] (by decide) (by decide) (by decide) (by decide) (by decide)).1
    (by decide)
  have h2 := (load_header_validation wPipeline MAGIC 2 0 0 0 [] (by decide)
    (by decide) (by decide) (by decide) (by decide)).2.1 rfl (by decide)
  have h3 := (load_header_validation wPipeline MAGIC 1 17 0 0 [] (by decide)
    (by decide) (by decide) (by decide) (by decide)).2.2.1 rfl rfl (by decide)
  have h4 := (load_header_validation wPipeline MAGIC 1 17 0 0 [] (by decide)
    (by decide) (by decide) (by decide) (by decide)).2.2.2.1 wEncPipeline
    wPipeline [] wEncStoreBytes (by decide) (by decide) rfl
  exact ⟨h1, h2, h3, h4, by decide⟩

/-- C5: with a raw-key configuration, decoding a well-formed encrypted
payload whose recorded salt length is non-zero (written under passphrase
mode) fails with the hard configuration-mismatch error.  The conclusion
holds for every AEAD — the cipher's decrypt is never consulted — so no
plaintext can be produced. -/
theorem rawkey_rejects_passphrase_file (alg : AeadAlgorithm) (kdf : Kdf)
    (key : Bytes) (saltLen : Nat) (salt : Bytes) (nonceLen : Nat)
    (nonce ct : Bytes) (hsl : salt.length = saltLen) (hpos : 0 < saltLen)
    (hnl : nonce.length = nonceLen) :
    encryptionLayerDecode alg kdf (.rawKey key)
      (saltLen :: (salt ++ nonceLen :: (nonce ++ ct))) =
      .error (.InvalidEncryptionConfig
        "encrypted file provided salt but raw key mode was configured") := by
  have hsne : salt ≠ [] := by
    intro hnil
    rw [hnil] at hsl
    simp at hsl
    omega
  simp only [encryptionLayerDecode, readU8, hpos, if_pos hpos]
  rw [readExact_append saltLen salt _ hsl]
  simp [readU8, readExact_append nonceLen nonce ct hnl, deriveForDecrypt, hsne]

/-- Witness for C5: a concrete passphrase-mode payload rejected by a
concrete raw-key configuration. -/
theorem rawkey_rejects_passphrase_file_witness :
    encryptionLayerDecode wAead wKdf (.rawKey (List.replicate 32 1))
      (16 :: (List.replicate 16 7 ++ 12 :: (List.replicate 12 9 ++ [5]))) =
      .error (.InvalidEncryptionConfig
        "encrypted file provided salt but raw key mode was configured") :=
  rawkey_rejects_passphrase_file wAead wKdf (List.replicate 32 1) 16
    (List.replicate 16 7) 12 (List.replicate 12 9) [5] (by decide) (by decide)
    (by decide)

/-- C6 counterexample: the claim says every crypto failure during decode
is reported as the single opaque `Crypto` signal, indistinguishable to
callers; but a missing salt under passphrase mode is reported as the
distinct `MissingSalt` variant, which no `Crypto` value equals. -/
theorem decode_crypto_error_counterexample :
    encryptionLayerDecode wAeadTagFail wKdf (.passphrase [112] 1000) [0, 0] =
      .error .MissingSalt ∧
    (∀ msg, (PersistenceError.MissingSalt : PersistenceError) ≠ .Crypto msg) :=
  ⟨rfl, fun _ h => PersistenceError.noConfusion h⟩

/-- C6 amended: decode-time crypto failures are reported as three
mutually distinct variants — an authentication failure propagates the
cipher's `Crypto` error, a missing salt under passphrase mode is
`MissingSalt`, and malformed salt material is `InvalidEncryptionConfig` —
so a caller can tell these causes apart. -/
theorem decode_crypto_error_variants (alg : AeadAlgorithm) (kdf : Kdf)
    (pass : Bytes) (iters : Nat) (nonceLen : Nat) (nonce ct : Bytes)
    (hnl : nonce.length = nonceLen) (saltLenBad : Nat) (saltBad : Bytes)
    (hslb : saltBad.length = saltLenBad) (hposb : 0 < saltLenBad)
    (hbad : saltLenBad ≠ SALT_LEN) (saltGood : Bytes)
    (hgood : saltGood.length = SALT_LEN) (m : String)
    (htag : alg.decryptBytes (kdf pass saltGood iters) nonce ct =
      .error (.Crypto m)) :
    (encryptionLayerDecode alg kdf (.passphrase pass iters)
      (0 :: nonceLen :: (nonce ++ ct)) = .error .MissingSalt) ∧
    (encryptionLayerDecode alg kdf (.passphrase pass iters)
      (saltLenBad :: (saltBad ++ nonceLen :: (nonce ++ ct))) =
      .error (.InvalidEncryptionConfig "encrypted file salt length mismatch")) ∧
    (encryptionLayerDecode alg kdf (.passphrase pass iters)
      (SALT_LEN :: (saltGood ++ nonceLen :: (nonce ++ ct))) =
      .error (.Crypto m)) ∧
    (∀ m1 m2, (PersistenceError.MissingSalt : PersistenceError) ≠ .Crypto m1 ∧
      (PersistenceError.MissingSalt : PersistenceError) ≠
        .InvalidEncryptionConfig m2 ∧
      (PersistenceError.InvalidEncryptionConfig m2 : PersistenceError) ≠
        .Crypto m1) := by
  refine ⟨?_, ?_, ?_, ?_⟩
  · simp only [encryptionLayerDecode, readU8]
    simp only [show ¬(0 > 0) from by omega, if_neg, reduceIte]
    rw [readExact_append nonceLen nonce ct hnl]
    simp [deriveForDecrypt]
  · simp only [encryptionLayerDecode, readU8, if_pos hposb]
    rw [readExact_append saltLenBad saltBad _ hslb]
    simp only [readU8]
    rw [readExact_append nonceLen nonce ct hnl]
    simp [deriveForDecrypt, hslb, hbad]
  · simp only [encryptionLayerDecode, readU8, SALT_LEN]
    rw [readExact_append 16 saltGood _ (by rw [hgood]; rfl)]
    simp [readU8, readExact_append nonceLen nonce ct hnl, deriveForDecrypt,
      hgood, SALT_LEN, htag]
  · intro m1 m2
    refine ⟨fun h => PersistenceError.noConfusion h,
      fun h => PersistenceError.noConfusion h,
      fun h => PersistenceError.noConfusion h⟩

/-- Witness for C6 (amended): the three decode failures at concrete
inputs — no salt recorded, a 3-byte salt, and a proper 16-byte salt whose
decryption reports a tag mismatch — with concrete distinct error
values. -/
theorem decode_crypto_error_variants_witness :
    (encryptionLayerDecode wAeadTagFail wKdf (.passphrase [112] 1000)
      (0 :: 12 :: (List.replicate 12 9 ++ [5])) = .error .MissingSalt) ∧
    (encryptionLayerDecode wAeadTagFail wKdf (.passphrase [112] 1000)
      (3 :: ([1, 2, 3] ++ 12 :: (List.replicate 12 9 ++ [5]))) =
      .error (.InvalidEncryptionConfig "encrypted file salt length mismatch")) ∧
    (encryptionLayerDecode wAeadTagFail wKdf (.passphrase [112] 1000)
      (SALT_LEN :: (List.replicate 16 7 ++ 12 :: (List.replicate 12 9 ++ [5]))) =
      .error (.Crypto "ChaCha20-Poly1305 decryption failure")) ∧
    (∀ m1 m2, (PersistenceError.MissingSalt : PersistenceError) ≠ .Crypto m1 ∧
      (PersistenceError.MissingSalt : PersistenceError) ≠
        .InvalidEncryptionConfig m2 ∧
      (PersistenceError.InvalidEncryptionConfig m2 : PersistenceError) ≠
        .Crypto m1) := by
  have h := decode_crypto_error_variants wAeadTagFail wKdf [112] 1000 12
    (List.replicate 12 9) [5] (by decide) 3 [1, 2, 3] (by decide) (by decide)
    (by decide) (List.replicate 16 7) (by decide)
    "ChaCha20-Poly1305 decryption failure" rfl
  exact ⟨h.1, h.2.1, h.2.2.1, h.2.2.2⟩

/-- C9: `load` on a nonexistent path returns `Ok` with the empty
snapshot list; and file-not-found is the only failure treated as "no
prior state": when the file exists, an `Ok` result (an empty list
included) is possible only because every step succeeded — the header was
read with the right magic, version and flags, the pipeline decoded the
payload, and all records parsed — so no failure of any of those steps is
ever swallowed into an empty result.  An existing empty file, for
instance, surfaces its I/O error. -/
theorem load_missing_file (p : PersistencePipeline) :
    BinaryBufferDb.load none p = .ok [] ∧
    BinaryBufferDb.load (some []) p = .error .IoError ∧
    (∀ bytes l, BinaryBufferDb.load (some bytes) p = .ok l →
      ∃ header payload decoded rest,
        FileHeader.read bytes = .ok (header, payload) ∧
        header.magic = MAGIC ∧ header.version = FORMAT_VERSION ∧
        header.flags = p.flags ∧ p.decode payload = .ok decoded ∧
        readBuffers header.bufferCount decoded = .ok (l, rest)) := by
  refine ⟨rfl, rfl, ?_⟩
  intro bytes l h
  unfold BinaryBufferDb.load at h
  dsimp only at h
  cases hr : FileHeader.read bytes with
  | error e => rw [hr] at h; exact absurd h (by simp)
  | ok hp =>
    obtain ⟨header, payload⟩ := hp
    rw [hr] at h
    dsimp only at h
    by_cases h1 : header.magic ≠ MAGIC
    · rw [if_pos h1] at h
      exact absurd h (by simp)
    · rw [if_neg h1] at h
      by_cases h2 : header.version ≠ FORMAT_VERSION
      · rw [if_pos h2] at h
        exact absurd h (by simp)
      · rw [if_neg h2] at h
        by_cases h3 : header.flags ≠ p.flags
        · rw [if_pos h3] at h
          exact absurd h (by simp)
        · rw [if_neg h3] at h
          simp only [ne_eq, not_not] at h1 h2 h3
          cases hd : p.decode payload with
          | error e => rw [hd] at h; exact absurd h (by simp)
          | ok decoded =>
            rw [hd] at h
            dsimp only at h
            cases hb : readBuffers header.bufferCount decoded with
            | error e => rw [hb] at h; exact absurd h (by simp)
            | ok pr =>
              obtain ⟨snaps, rest⟩ := pr
              rw [hb] at h
              dsimp only at h
              injection h with h
              subst h
              exact ⟨header, payload, decoded, rest, rfl, h1, h2, h3, hd, hb⟩

/-- Witness for C9: the missing-file case under a concrete pipeline, and
the inversion applied to a concrete successful load — the bytes `store`
committed for the empty snapshot list. -/
theorem load_missing_file_witness :
    BinaryBufferDb.load none wPipeline = .ok [] ∧
    (∃ header payload decoded rest,
      FileHeader.read wStoreBytes = .ok (header, payload) ∧
      header.magic = MAGIC ∧ header.version = FORMAT_VERSION ∧
      header.flags = wPipeline.flags ∧
      wPipeline.decode payload = .ok decoded ∧
      readBuffers header.bufferCount decoded = .ok ([], rest)) :=
  ⟨(load_missing_file wPipeline).1,
   (load_missing_file wPipeline).2.2 wStoreBytes [] rfl⟩

end Iridium

namespace IridiumStore

theorem lookupKey_eq_none_of_not_contains (m : BufferMap) (k : String)
    (h : containsKey m k = false) : lookupKey m k = none := by
  induction m with
  | nil => rfl
  | cons p rest ih =>
    simp only [containsKey, List.any_cons, Bool.or_eq_false_iff] at h
    obtain ⟨h1, h2⟩ := h
    cases p with
    | mk k' v =>
      simp only [lookupKey]
      rw [if_neg (by simpa using h1)]
      exact ih h2

theorem containsKey_removeKey_false (m : BufferMap) (k k2 : String)
    (h : containsKey m k2 = false) :
    containsKey (removeKey m k) k2 = false := by
  induction m with
  | nil => rfl
  | cons p rest ih =>
    simp only [containsKey, List.any_cons, Bool.or_eq_false_iff] at h
    obtain ⟨h1, h2⟩ := h
    cases p with
    | mk k' v =>
      simp only [removeKey]
      by_cases hk : k' = k
      · rw [if_pos hk]; exact h2
      · rw [if_neg hk]
        simp only [containsKey, List.any_cons, Bool.or_eq_false_iff]
        exact ⟨h1, ih h2⟩

theorem lookupKey_append (m1 m2 : BufferMap) (k : String) :
    lookupKey (m1 ++ m2) k =
      match lookupKey m1 k with
      | some v => some v
      | none => lookupKey m2 k := by
  induction m1 with
  | nil => simp [lookupKey]
  | cons p rest ih =>
    cases p with
    | mk k' v =>
      simp only [List.cons_append, lookupKey]
      by_cases hk : k' = k
      · rw [if_pos hk, if_pos hk]
      · rw [if_neg hk, if_neg hk]; exact ih

theorem lookupKey_insertKey_self (m : BufferMap) (k : String) (v : Buffer)
    (h : containsKey m k = false) :
    lookupKey (insertKey m k v) k = some v := by
  simp only [insertKey, h, Bool.false_eq_true, if_false]
  rw [lookupKey_append, lookupKey_eq_none_of_not_contains m k h]
  simp [lookupKey]

theorem lookupKey_insertKey_other (m : BufferMap) (k k2 : String) (v : Buffer)
    (h : containsKey m k = false) (hne : k2 ≠ k) :
    lookupKey (insertKey m k v) k2 = lookupKey m k2 := by
  simp only [insertKey, h, Bool.false_eq_true, if_false]
  rw [lookupKey_append]
  cases hl : lookupKey m k2 with
  | some v2 => rfl
  | none =>
    simp only [lookupKey]
    rw [if_neg (fun hh => hne hh.symm)]

theorem lookupKey_removeKey_other (m : BufferMap) (k k2 : String)
    (hne : k2 ≠ k) : lookupKey (removeKey m k) k2 = lookupKey m k2 := by
  induction m with
  | nil => rfl
  | cons p rest ih =>
    cases p with
    | mk k' v =>
      simp only [removeKey, lookupKey]
      by_cases hk : k' = k
      · rw [if_pos hk, if_neg (by rw [hk]; exact fun hh => hne hh.symm)]
      · rw [if_neg hk]
        simp only [lookupKey]
        by_cases hk2 : k' = k2
        · rw [if_pos hk2, if_pos hk2]
        · rw [if_neg hk2, if_neg hk2, ih]

theorem containsKey_eq_false_iff (m : BufferMap) (k : String) :
    containsKey m k = false ↔ k ∉ m.map Prod.fst := by
  simp only [containsKey, Bool.eq_false_iff, ne_eq, List.any_eq_true,
    decide_eq_true_eq, not_exists, List.mem_map, Prod.exists]

theorem lookupKey_removeKey_self (m : BufferMap) (k : String)
    (hnd : (m.map Prod.fst).Nodup) : lookupKey (removeKey m k) k = none := by
  induction m with
  | nil => rfl
  | cons p rest ih =>
    cases p with
    | mk k' v =>
      simp only [List.map_cons, List.nodup_cons] at hnd
      obtain ⟨hnotin, hnd'⟩ := hnd
      simp only [removeKey]
      by_cases hk : k' = k
      · rw [if_pos hk]
        subst hk
        apply lookupKey_eq_none_of_not_contains
        exact (containsKey_eq_false_iff rest k').mpr hnotin
      · rw [if_neg hk]
        simp only [lookupKey]
        rw [if_neg hk]
        exact ih hnd'

theorem length_removeKey_of_contains (m : BufferMap) (k : String)
    (h : containsKey m k = true) :
    (removeKey m k).length + 1 = m.length := by
  induction m with
  | nil => simp [containsKey] at h
  | cons p rest ih =>
    cases p with
    | mk k' v =>
      simp only [removeKey]
      by_cases hk : k' = k
      · rw [if_pos hk]; simp
      · rw [if_neg hk]
        simp only [containsKey, List.any_cons, Bool.or_eq_true] at h
        rcases h with h | h
        · exact absurd (by simpa using h) hk
        · simp only [List.length_cons]
          rw [← ih h]

theorem length_insertKey_of_not_contains (m : BufferMap) (k : String)
    (v : Buffer) (h : containsKey m k = false) :
    (insertKey m k v).length = m.length + 1 := by
  simp [insertKey, h]

theorem contains_of_lookup_some (m : BufferMap) (k : String) (v : Buffer)
    (h : lookupKey m k = some v) : containsKey m k = true := by
  induction m with
  | nil => simp [lookupKey] at h
  | cons p rest ih =>
    cases p with
    | mk k' v' =>
      simp only [lookupKey] at h
      simp only [containsKey, List.any_cons, Bool.or_eq_true]
      by_cases hk : k' = k
      · exact Or.inl (by simpa using hk)
      · rw [if_neg hk] at h
        exact Or.inr (ih h)

/-- C7 counterexample: the claim says `clear` sets `dirty = true` only
when the content actually changes, but `Buffer::clear` marks dirty
unconditionally — clearing an already-empty, clean buffer leaves the
lines unchanged yet sets the dirty flag. -/
theorem clear_dirty_counterexample :
    (Buffer.new "n").clear.lines = (Buffer.new "n").lines ∧
    (Buffer.new "n").dirty = false ∧
    (Buffer.new "n").clear.dirty = true :=
  ⟨rfl, rfl, rfl⟩

/-- C7 amended: `append` and `clear` always set `dirty = true` (`clear`
even when the buffer is already empty); `remove_last` sets it only when a
line was actually removed and is a complete no-op otherwise; every other
mutation either sets the flag or leaves it alone, and the flag is cleared
only by a successful `save_to_disk` (a failed save leaves the buffer
untouched) or by `mark_clean`. -/
theorem dirty_flag_discipline (b : Buffer) (line : Line)
    (row col width : Nat) (ch : Char) (nm : String) (o r : Bool) :
    ((b.append line).dirty = true) ∧
    (b.clear.dirty = true) ∧
    (b.lines = [] → b.removeLast = (b, none)) ∧
    (b.lines ≠ [] → (b.removeLast).1.dirty = true) ∧
    ((b.insertChar row col ch).dirty = true) ∧
    ((b.deleteChar row col).2 = none → (b.deleteChar row col).1 = b) ∧
    ((b.deleteChar row col).2 ≠ none → (b.deleteChar row col).1.dirty = true) ∧
    ((b.insertNewline row col).1.dirty = true) ∧
    (b.dirty = true → (b.padLine row width).dirty = true) ∧
    ((b.setOpen o).dirty = b.dirty) ∧
    ((b.setName nm).dirty = b.dirty) ∧
    ((b.markRequiresName r).dirty = b.dirty) ∧
    ((b.saveToDisk true).1.dirty = false) ∧
    ((b.saveToDisk false).1 = b) ∧
    (b.markClean.dirty = false) := by
  refine ⟨rfl, rfl, ?_, ?_, rfl, ?_, ?_, rfl, ?_, rfl, rfl, rfl, rfl, rfl, rfl⟩
  · intro hnil
    simp [Buffer.removeLast, hnil]
  · intro hne
    cases hl : b.lines.getLast? with
    | none => exact absurd (List.getLast?_eq_none_iff.mp hl) hne
    | some l => simp [Buffer.removeLast, hl]
  · unfold Buffer.deleteChar
    cases hg : b.lines.get? row with
    | none => intro _; rfl
    | some l =>
      dsimp only
      by_cases hc : col = 0 ∨ col > l.length
      · rw [if_pos hc]
        intro _
        rfl
      · rw [if_neg hc]
        intro hnone
        simp at hnone
  · unfold Buffer.deleteChar
    cases hg : b.lines.get? row with
    | none => intro h; simp at h
    | some l =>
      dsimp only
      by_cases hc : col = 0 ∨ col > l.length
      · rw [if_pos hc]
        intro h
        simp at h
      · rw [if_neg hc]
        intro _
        rfl
  · intro hd
    unfold Buffer.padLine
    dsimp only
    split
    · rfl
    · exact hd

/-- Witness for C7 (amended): the dirty discipline at a concrete buffer
with one line, checking the conditional branches concretely. -/
theorem dirty_flag_discipline_witness :
    ((⟨"w", [], false, false, true⟩ : Buffer).lines = [] →
      (⟨"w", [], false, false, true⟩ : Buffer).removeLast =
        (⟨"w", [], false, false, true⟩, none)) ∧
    ((⟨"w", [['a']], false, false, true⟩ : Buffer).lines ≠ [] →
      ((⟨"w", [['a']], false, false, true⟩ : Buffer).removeLast).1.dirty =
        true) ∧
    ((⟨"w", [['a']], true, false, true⟩ : Buffer).padLine 0 0).dirty = true := by
  have h0 := dirty_flag_discipline ⟨"w", [], false, false, true⟩ [] 0 0 0 'a'
    "x" true true
  have h1 := dirty_flag_discipline ⟨"w", [['a']], false, false, true⟩ [] 0 0 0
    'a' "x" true true
  have h2 := dirty_flag_discipline ⟨"w", [['a']], true, false, true⟩ [] 0 0 0
    'a' "x" true true
  exact ⟨fun _ => h0.2.2.1 rfl, fun _ => h1.2.2.2.1 (by decide),
    h2.2.2.2.2.2.2.2.2.1 rfl⟩

/-- C8 counterexample: on an empty store, `rename "a" "b"` hits none of
the claim's three failure conditions (`old == new`, empty `new`, existing
`new`), yet it returns `false` because `old` names no buffer. -/
theorem rename_missing_old_counterexample :
    ¬("a" = "b" ∨ "b" = "" ∨
      containsKey (⟨[]⟩ : BufferStore).buffers "b" = true) ∧
    (BufferStore.rename ⟨[]⟩ "a" "b").2 = false := by
  constructor
  · decide
  · rfl

/-- C8 amended: `rename(old, new)` returns `false` exactly when
`old == new`, `new` is empty, `new` already exists, or `old` names no
buffer; otherwise it returns `true` and moves the single entry — `new`
maps to the old buffer with its name field updated, `old` is gone, every
other key is untouched, and the entry count is unchanged. -/
theorem rename_spec (st : BufferStore) (oldName newName : String)
    (hnd : (st.buffers.map Prod.fst).Nodup) :
    ((st.rename oldName newName).2 = false ↔
      (oldName = newName ∨ newName = "" ∨
        containsKey st.buffers newName = true ∨
        lookupKey st.buffers oldName = none)) ∧
    (∀ b, lookupKey st.buffers oldName = some b → oldName ≠ newName →
      newName ≠ "" → containsKey st.buffers newName = false →
      (st.rename oldName newName).2 = true ∧
      lookupKey (st.rename oldName newName).1.buffers newName =
        some (b.setName newName) ∧
      lookupKey (st.rename oldName newName).1.buffers oldName = none ∧
      (∀ k, k ≠ oldName → k ≠ newName →
        lookupKey (st.rename oldName newName).1.buffers k =
          lookupKey st.buffers k) ∧
      (st.rename oldName newName).1.buffers.length = st.buffers.length) := by
  constructor
  · unfold BufferStore.rename
    by_cases h1 : oldName = newName ∨ newName = ""
    · simp [h1]
      tauto
    · rw [if_neg h1]
      by_cases h2 : containsKey st.buffers newName
      · simp [h2]
      · rw [if_neg h2]
        cases hl : lookupKey st.buffers oldName with
        | some b => simp [h1, hl, Bool.eq_false_iff.mp (by simpa using h2)]
        | none => simp [hl]
  · intro b hl hne hnemp hnc
    have hcond : ¬(oldName = newName ∨ newName = "") := by
      intro hc
      rcases hc with hc | hc
      · exact hne hc
      · exact hnemp hc
    have hres : (st.rename oldName newName).1.buffers =
        insertKey (removeKey st.buffers oldName) newName
          (b.setName newName) ∧ (st.rename oldName newName).2 = true := by
      unfold BufferStore.rename
      rw [if_neg hcond, if_neg (by simp [hnc]), hl]
      exact ⟨rfl, rfl⟩
    have hncr : containsKey (removeKey st.buffers oldName) newName = false :=
      containsKey_removeKey_false st.buffers oldName newName hnc
    refine ⟨hres.2, ?_, ?_, ?_, ?_⟩
    · rw [hres.1]
      exact lookupKey_insertKey_self _ newName _ hncr
    · rw [hres.1]
      rw [lookupKey_insertKey_other _ newName oldName _ hncr hne]
      exact lookupKey_removeKey_self st.buffers oldName hnd
    · intro k hko hkn
      rw [hres.1]
      rw [lookupKey_insertKey_other _ newName k _ hncr hkn]
      exact lookupKey_removeKey_other st.buffers oldName k hko
    · rw [hres.1]
      rw [length_insertKey_of_not_contains _ newName _ hncr]
      rw [length_removeKey_of_contains st.buffers oldName
        (contains_of_lookup_some st.buffers oldName b hl)]

/-- Witness for C8 (amended): renaming the only buffer of a concrete
store moves the entry, checked at concrete keys. -/
theorem rename_spec_witness :
    ((BufferStore.rename ⟨[("a", Buffer.new "a")]⟩ "a" "b").2 = true ∧
    lookupKey (BufferStore.rename ⟨[("a", Buffer.new "a")]⟩ "a" "b").1.buffers
      "b" = some ((Buffer.new "a").setName "b") ∧
    lookupKey (BufferStore.rename ⟨[("a", Buffer.new "a")]⟩ "a" "b").1.buffers
      "a" = none ∧
    (BufferStore.rename ⟨[("a", Buffer.new "a")]⟩ "a" "b").1.buffers.length =
      (⟨[("a", Buffer.new "a")]⟩ : BufferStore).buffers.length) := by
  have h := (rename_spec ⟨[("a", Buffer.new "a")]⟩ "a" "b"
    (by simp)).2 (Buffer.new "a") rfl (by decide) (by decide) (by decide)
  exact ⟨h.1, h.2.1, h.2.2.1, h.2.2.2.2⟩

/-- C10: `pad_line(row, width)` always grows the line list first so that
index `row` exists (the resulting length is `max (old length) (row+1)`),
even when no padding is needed; and when the line at `row` already has at
least `width` characters, the buffer keeps its dirty flag and simply
carries the grown line list. -/
theorem padLine_spec (b : Buffer) (row width : Nat) :
    ((b.padLine row width).lines.length = max b.lines.length (row + 1)) ∧
    (width ≤ ((growTo b.lines row).getD row []).length →
      b.padLine row width = { b with lines := growTo b.lines row }) := by
  constructor
  · unfold Buffer.padLine
    dsimp only
    split
    · simp [growTo]
      omega
    · simp [growTo]
      omega
  · intro hw
    unfold Buffer.padLine
    dsimp only
    rw [if_neg (by omega)]

/-- Witness for C10: padding row 2 of a one-line buffer with width 0
grows the list to three rows, changes nothing else, and keeps the buffer
clean. -/
theorem padLine_spec_witness :
    (((⟨"w", [['a']], false, false, true⟩ : Buffer).padLine 2 0).lines.length =
      max 1 3) ∧
    ((⟨"w", [['a']], false, false, true⟩ : Buffer).padLine 2 0 =
      ⟨"w", [['a'], [], []], false, false, true⟩) := by
  have h := padLine_spec ⟨"w", [['a']], false, false, true⟩ 2 0
  refine ⟨h.1, ?_⟩
  have h2 := h.2 (by decide)
  rw [h2]
  rfl

end IridiumStore
